import Mathlib

/-!
Shallow embedding of the queue/undo-redo/collision engine of handpix
(source file src/handpix.py): ImageSet (one queued collection of files)
and ActionQueue (pending queue, skip/delete/select stacks, linked
undo/redo history, deferred filesystem apply).

Modelling conventions:
* a filesystem path (Python pathlib.Path) is the list of its segments;
* the on-disk state is the set (list) of existing filesystem nodes;
* GdkPixbuf decoding, file reading and os.stat metadata read the real
  environment, so they appear as oracle parameters;
* Python exceptions are modelled with Option/Except: a none/error result
  stands for the raised exception.
-/

set_option autoImplicit false

namespace Handpix

/-- Filesystem path as the list of its segments (pathlib.Path in the source). -/
abbrev DPath := List String

/-- Python Path.name: the final path segment (empty string for a bare root,
matching pathlib which returns an empty name there). -/
def pathName (p : DPath) : String := p.getLastD ""

/-- Python Path.parents[0]: the immediate parent path. -/
def parent0 (p : DPath) : DPath := p.dropLast

/-- Python Path(filename).suffix[1:]: the text after the last dot of the
name, empty when there is no dot or when the only dot is the leading
character (pathlib requires the last dot to be at index greater than 0). -/
def suffixExt (filename : String) : String :=
  match filename.splitOn "." with
  | [] => ""
  | [_] => ""
  | ["", _] => ""
  | parts => parts.getLastD ""

/-- Association-list membership test, mirroring the Python expression
"key in dict" (Python dicts have unique keys; the queue only builds
association lists with distinct keys). -/
def containsKey {α : Type} (k : DPath) : List (DPath × α) → Bool
  | [] => false
  | kv :: t => if kv.1 = k then true else containsKey k t

/-- Association-list lookup, mirroring Python dict subscript read. -/
def alistGet {α : Type} (k : DPath) : List (DPath × α) → Option α
  | [] => none
  | kv :: t => if kv.1 = k then some kv.2 else alistGet k t

/-- Association-list write, mirroring Python dict subscript assignment:
replace the value of an existing key in place, otherwise append the new
key at the end (Python dicts preserve insertion order). -/
def dictSet {α : Type} (k : DPath) (v : α) : List (DPath × α) → List (DPath × α)
  | [] => [(k, v)]
  | kv :: t => if kv.1 = k then (k, v) :: t else kv :: dictSet k v t

/-- Association-list key removal, mirroring Python dict.pop(key). -/
def removeKey {α : Type} (k : DPath) : List (DPath × α) → List (DPath × α)
  | [] => []
  | kv :: t => if kv.1 = k then t else kv :: removeKey k t

/-- ImageSet.SUPPORTED_TEXT_FORMATS. -/
def SUPPORTED_TEXT_FORMATS : List String := ["txt", "json", "xml", "html", "md"]

/-- ImageSet.Type from the source (renamed: Type is a Lean keyword). -/
inductive ISType where
  | UNKNOWN
  | IMAGE
  | TEXT
deriving DecidableEq

/-- ImageSet.Type.from_extension.  The image-format set is computed at
program startup from the installed GdkPixbuf loaders, hence a parameter. -/
def from_extension (imageFormats : List String) (extension : String) : ISType :=
  let extension := extension.toLower
  if extension ∈ imageFormats then ISType.IMAGE
  else if extension ∈ SUPPORTED_TEXT_FORMATS then ISType.TEXT
  else ISType.UNKNOWN

/-- ImageSet.is_supported_format. -/
def is_supported_format (imageFormats : List String) (extension : String) : Bool :=
  let extension := extension.toLower
  decide (extension ∈ imageFormats) || decide (extension ∈ SUPPORTED_TEXT_FORMATS)

/-- A decoded GdkPixbuf image: only its dimensions matter to the queue
logic (get_image compares get_width against the requested size). -/
structure Pixbuf where
  width : Nat
  height : Nat
deriving DecidableEq

/-- A value stored in ImageSet.cache: get_image stores pixbufs and
get_text stores file text in the same per-file dictionary. -/
inductive CacheVal where
  | pix (p : Pixbuf)
  | text (t : String)
deriving DecidableEq

/-- ImageSet.DEFAULT_TEXT. -/
def DEFAULT_TEXT : String :=
  "Either the set is empty or the select item is not a text file."

/-- The sentinel string returned by get_item_name on an empty set (the
source concatenates two string literals without a separating space). -/
def NO_FILES_TEXT : String :=
  "This set has no files.The folder is probably empty or has no files of a supported type."

/-- ImageSet: one queued collection (a single file or a directory of
eligible files).  Fields are exactly those assigned in the constructor;
humansize is the cached human-readable size string. -/
structure ImageSet where
  path : DPath
  is_collection : Bool
  files : List DPath
  cache : List (DPath × CacheVal)
  selected : Nat
  atime : Nat
  mtime : Nat
  name : String
  size : Nat
  humansize : String
deriving DecidableEq

namespace ImageSet

/-- ImageSet.get_item_type: classifies files[selected] by extension.
There is no emptiness guard in the source, so an out-of-range index
(in particular an empty collection) raises IndexError, modelled as none. -/
def get_item_type (imageFormats : List String) (s : ImageSet) : Option ISType :=
  (s.files[s.selected]?).map (fun file =>
    from_extension imageFormats (suffixExt (pathName file)))

/-- ImageSet.get_image.  Decoding and orientation-preserving scaling read
the real file, so they are a single oracle: render file size is the
scaled pixbuf, or none when new_from_file/scale raises (the try/except
turns that into the default image).  image_size is Optional in the
source; when it is None the scaling arithmetic raises TypeError, which
the same except clause turns into the default image.  The overall none
result models an uncaught exception (IndexError from get_item_type, or
AttributeError when a text entry occupies the cache slot). -/
def get_image (imageFormats : List String) (DEFAULT_IMAGE : Pixbuf)
    (render : DPath → Nat → Option Pixbuf) (image_size : Option Nat)
    (s : ImageSet) : Option (Pixbuf × ImageSet) :=
  if s.files.length = 0 then some (DEFAULT_IMAGE, s)
  else
    match get_item_type imageFormats s with
    | none => none
    | some t =>
      if t ≠ ISType.IMAGE then some (DEFAULT_IMAGE, s)
      else
        match s.files[s.selected]? with
        | none => none
        | some file =>
          match alistGet file s.cache with
          | some (CacheVal.text _) => none
          | cached =>
            let hit : Bool :=
              match cached with
              | some (CacheVal.pix p) => decide (some p.width = image_size)
              | _ => false
            if hit then
              some ((match cached with
                     | some (CacheVal.pix p) => p
                     | _ => DEFAULT_IMAGE), s)
            else
              let newPix :=
                if from_extension imageFormats (suffixExt (pathName file)) = ISType.IMAGE then
                  match image_size with
                  | none => DEFAULT_IMAGE
                  | some isz =>
                    match render file isz with
                    | none => DEFAULT_IMAGE
                    | some p => p
                else DEFAULT_IMAGE
              some (newPix, { s with cache := dictSet file (CacheVal.pix newPix) s.cache })

/-- ImageSet.get_text.  read_text is the filesystem oracle; a none there
models an uncaught I/O exception.  The source returns the raw cache
entry, which in practice is always text for a TEXT file. -/
def get_text (imageFormats : List String) (read_text : DPath → Option String)
    (s : ImageSet) : Option (CacheVal × ImageSet) :=
  if s.files.length = 0 then some (CacheVal.text DEFAULT_TEXT, s)
  else
    match get_item_type imageFormats s with
    | none => none
    | some t =>
      if t ≠ ISType.TEXT then some (CacheVal.text DEFAULT_TEXT, s)
      else
        match s.files[s.selected]? with
        | none => none
        | some file =>
          match alistGet file s.cache with
          | some v => some (v, s)
          | none =>
            match read_text file with
            | none => none
            | some txt =>
              some (CacheVal.text txt,
                    { s with cache := dictSet file (CacheVal.text txt) s.cache })

/-- ImageSet.get_item_name: the selected file name, or the sentinel text
for an empty set; none models the IndexError on an out-of-range cursor. -/
def get_item_name (s : ImageSet) : Option String :=
  if s.files.length = 0 then some NO_FILES_TEXT
  else (s.files[s.selected]?).map pathName

end ImageSet

/-- One non-sentinel undo-history node: the source stores a pair of an
action kind and a target, the target being meaningful (the destination
path) only for SELECT; the START sentinel is represented by an empty
past list in the queue state below. -/
inductive HNode where
  | SKIP
  | DELETE
  | SELECT (target : DPath)
deriving DecidableEq

/-- ActionQueue.PathCollision, carrying the colliding destination (the
source formats it into the exception message). -/
structure PathCollision where
  destination : DPath
deriving DecidableEq

/-- ActionQueue state.  The doubly-linked history with its cursor is
represented as a zipper: past holds the nodes from the cursor back to
(but excluding) the START sentinel, most recent first, and future holds
the nodes after the cursor in order (history.next is its head). -/
structure ActionQueue where
  queue : List ImageSet
  skipped : List ImageSet
  deleted : List ImageSet
  selected : List (DPath × List ImageSet)
  past : List HNode
  future : List HNode
deriving DecidableEq

namespace ActionQueue

/-- ActionQueue.__init__: all containers empty, cursor at START. -/
def initialAQ : ActionQueue :=
  { queue := [], skipped := [], deleted := [], selected := [], past := [], future := [] }

/-- ActionQueue.get_progress.  The source computes 1.0 - pending/total
and raises ZeroDivisionError when total is zero (queue never held an
item); the none result models that exception.  Rationals stand in for
Python floats. -/
def get_progress (q : ActionQueue) : Option ℚ :=
  let processed := q.skipped.length + q.deleted.length
    + (q.selected.map (fun kv => kv.2.length)).sum
  let pending := q.queue.length
  let total := pending + processed
  if total = 0 then none
  else some (1 - (pending : ℚ) / (total : ℚ))

/-- ActionQueue.get_item_status: a status string read from the history
node after the cursor; for a SELECT node the source returns
target.parents[0].name, the name of the destination's parent. -/
def get_item_status (q : ActionQueue) : String :=
  match q.future with
  | status :: _ =>
    match status with
    | HNode.SKIP => "skipped"
    | HNode.DELETE => "deleted"
    | HNode.SELECT target => pathName (parent0 target)
  | [] => "unsorted"

/-- ActionQueue.peek: queue[-1] if the queue is non-empty, else None. -/
def peek (q : ActionQueue) : Option ImageSet := q.queue.getLast?

/-- Name-mangled ActionQueue.__skip: pop the queue tail onto skipped. -/
def skipPriv (q : ActionQueue) : ActionQueue × Bool :=
  match q.queue.getLast? with
  | none => (q, false)
  | some x => ({ q with queue := q.queue.dropLast, skipped := q.skipped ++ [x] }, true)

/-- Name-mangled ActionQueue.__back: pop skipped back onto the queue. -/
def backPriv (q : ActionQueue) : ActionQueue × Bool :=
  match q.skipped.getLast? with
  | none => (q, false)
  | some x => ({ q with skipped := q.skipped.dropLast, queue := q.queue ++ [x] }, true)

/-- Name-mangled ActionQueue.__delete: pop the queue tail onto deleted. -/
def deletePriv (q : ActionQueue) : ActionQueue × Bool :=
  match q.queue.getLast? with
  | none => (q, false)
  | some x => ({ q with queue := q.queue.dropLast, deleted := q.deleted ++ [x] }, true)

/-- Name-mangled ActionQueue.__undelete: pop deleted back onto the queue. -/
def undeletePriv (q : ActionQueue) : ActionQueue × Bool :=
  match q.deleted.getLast? with
  | none => (q, false)
  | some x => ({ q with deleted := q.deleted.dropLast, queue := q.queue ++ [x] }, true)

/-- ActionQueue.is_collision: the destination is a pending selection key
or exists on disk.  disk is the Path.exists oracle. -/
def is_collision (disk : DPath → Bool) (q : ActionQueue) (destination : DPath) : Bool :=
  containsKey destination q.selected || disk destination

/-- ActionQueue.resolve_collision_source: the most recent pending source
for the destination, else the destination itself. -/
def resolve_collision_source (q : ActionQueue) (destination : DPath) : DPath :=
  match alistGet destination q.selected with
  | some stack => ((stack.getLast?).map (fun s => s.path)).getD destination
  | none => destination

/-- Name-mangled ActionQueue.__select: pop the queue tail onto the
destination's stack in selected, creating the key when absent; raises
PathCollision when overwrite is false and the destination collides. -/
def selectPriv (disk : DPath → Bool) (q : ActionQueue) (destination : DPath)
    (overwrite : Bool) : Except PathCollision (ActionQueue × Bool) :=
  match q.queue.getLast? with
  | none => Except.ok (q, false)
  | some x =>
    if !overwrite && is_collision disk q destination then
      Except.error { destination := destination }
    else
      let sel0 := if containsKey destination q.selected then q.selected
                  else dictSet destination [] q.selected
      let stack0 := (alistGet destination sel0).getD []
      let sel1 := dictSet destination (stack0 ++ [x]) sel0
      Except.ok ({ q with queue := q.queue.dropLast, selected := sel1 }, true)

/-- Name-mangled ActionQueue.__unselect: pop the top of the destination's
stack back onto the queue and drop the key when its stack empties.  The
source would raise IndexError on an empty stored stack (unreachable:
every reachable selected stack is non-empty); that branch is a no-op
here. -/
def unselectPriv (q : ActionQueue) (destination : DPath) : ActionQueue × Bool :=
  match alistGet destination q.selected with
  | none => (q, false)
  | some stack =>
    match stack.getLast? with
    | none => (q, false)
    | some x =>
      let stack1 := stack.dropLast
      let sel1 := dictSet destination stack1 q.selected
      let sel2 := if stack1 = [] then removeKey destination sel1 else sel1
      ({ q with queue := q.queue ++ [x], selected := sel2 }, true)

/-- ActionQueue.add_history: with a following node present, overwrite
that node's kind and target in place and advance the cursor onto it (its
own successors stay linked); otherwise append a fresh node. -/
def add_history (q : ActionQueue) (node : HNode) : ActionQueue :=
  match q.future with
  | _ :: fs => { q with past := node :: q.past, future := fs }
  | [] => { q with past := node :: q.past, future := [] }

/-- ActionQueue.clear_history: cursor back to START, severing its next. -/
def clear_history (q : ActionQueue) : ActionQueue :=
  { q with past := [], future := [] }

/-- ActionQueue.skip. -/
def skip (q : ActionQueue) : ActionQueue :=
  match skipPriv q with
  | (q1, true) => add_history q1 HNode.SKIP
  | (q1, false) => q1

/-- ActionQueue.delete. -/
def delete (q : ActionQueue) : ActionQueue :=
  match deletePriv q with
  | (q1, true) => add_history q1 HNode.DELETE
  | (q1, false) => q1

/-- ActionQueue.select. -/
def select (disk : DPath → Bool) (q : ActionQueue) (destination : DPath)
    (overwrite : Bool) : Except PathCollision ActionQueue :=
  match selectPriv disk q destination overwrite with
  | Except.error e => Except.error e
  | Except.ok (q1, true) => Except.ok (add_history q1 (HNode.SELECT destination))
  | Except.ok (q1, false) => Except.ok q1

/-- ActionQueue.undo: dispatch on the cursor node's kind, then move the
cursor to its predecessor; false at the START sentinel. -/
def undo (q : ActionQueue) : ActionQueue × Bool :=
  match q.past with
  | [] => (q, false)
  | h :: rest =>
    let q1 :=
      match h with
      | HNode.SKIP => (backPriv q).1
      | HNode.DELETE => (undeletePriv q).1
      | HNode.SELECT target => (unselectPriv q target).1
    ({ q1 with past := rest, future := h :: q.future }, true)

/-- ActionQueue.redo: advance the cursor onto history.next and re-execute
its action, re-selecting with forced overwrite (which therefore can
never raise); false when no next node exists. -/
def redo (disk : DPath → Bool) (q : ActionQueue) : ActionQueue × Bool :=
  match q.future with
  | [] => (q, false)
  | h :: fs =>
    let q1 := { q with past := h :: q.past, future := fs }
    let q2 :=
      match h with
      | HNode.SKIP => (skipPriv q1).1
      | HNode.DELETE => (deletePriv q1).1
      | HNode.SELECT target =>
        match selectPriv disk q1 target true with
        | Except.ok (q3, _) => q3
        | Except.error _ => q1
    (q2, true)

end ActionQueue

end Handpix

namespace Handpix

/-- Character-wise lexicographic strict order on strings by code point,
matching Python string comparison (Lean's builtin String order does not
kernel-reduce, so it is spelled out). -/
def strLtCore : List Char → List Char → Bool
  | [], [] => false
  | [], _ :: _ => true
  | _ :: _, [] => false
  | a :: as, b :: bs =>
    if a.toNat < b.toNat then true
    else if b.toNat < a.toNat then false
    else strLtCore as bs

/-- Non-strict string order derived from strLtCore. -/
def strLe (a b : String) : Bool := !(strLtCore b.toList a.toList)

/-- Sort key produced by ActionQueue.SORT_DISPATCH: a number for the
time/size criteria, a string for the name criterion. -/
inductive SortKey where
  | ofNat (n : Nat)
  | ofStr (s : String)
deriving DecidableEq

/-- Order on sort keys.  A single sort always compares keys built by one
criterion, so only the same-constructor cases are ever exercised. -/
def sortKeyLe : SortKey → SortKey → Bool
  | SortKey.ofNat a, SortKey.ofNat b => decide (a ≤ b)
  | SortKey.ofStr a, SortKey.ofStr b => strLe a b
  | SortKey.ofNat _, SortKey.ofStr _ => true
  | SortKey.ofStr _, SortKey.ofNat _ => true

/-- ActionQueue.SORT_DISPATCH.  The random criterion draws a fresh
random.random() key per element and is inherently nondeterministic (an
unknown criterion raises KeyError); both fall to a constant key here and
are exercised by no claim. -/
def SORT_DISPATCH : String → ImageSet → SortKey
  | "atime", s => SortKey.ofNat s.atime
  | "mtime", s => SortKey.ofNat s.mtime
  | "name", s => SortKey.ofStr s.name
  | "size", s => SortKey.ofNat s.size
  | _, _ => SortKey.ofNat 0

/-- Stable insertion of an element into a le-sorted list: the element
goes before the first entry it is not le-after, so existing ties keep
their original relative order. -/
def stableInsert {α : Type} (le : α → α → Bool) (x : α) : List α → List α
  | [] => [x]
  | y :: ys => if le x y then x :: y :: ys else y :: stableInsert le x ys

/-- Stable sort by a boolean total order, agreeing with Python
list.sort (timsort), which is specified as stable: any two stable sorts
by the same total order coincide. -/
def pyStableSort {α : Type} (le : α → α → Bool) : List α → List α
  | [] => []
  | x :: xs => stableInsert le x (pyStableSort le xs)

/-- Python list.sort(key=k, reverse=r): stable ascending by key, or
stable descending (ties still in original order) when reversed. -/
def pyListSortBy (key : ImageSet → SortKey) (reverse : Bool)
    (l : List ImageSet) : List ImageSet :=
  if reverse then pyStableSort (fun a b => sortKeyLe (key b) (key a)) l
  else pyStableSort (fun a b => sortKeyLe (key a) (key b)) l

namespace ActionQueue

/-- ActionQueue.sort: the internal order is inverted relative to the
requested order because the queue's logical front is the list tail. -/
def sort (criterion : String) (reverse : Bool) (q : ActionQueue) : ActionQueue :=
  { q with queue := pyListSortBy (SORT_DISPATCH criterion) (!reverse) q.queue }

/-- ActionQueue.requeue: clear history, move every skipped item back to
the queue (extend then swap then clear), optionally re-sort. -/
def requeue (criterion : Option String) (reverse : Bool) (q : ActionQueue) : ActionQueue :=
  let q1 := clear_history q
  let q2 := { q1 with queue := q1.skipped ++ q1.queue, skipped := [] }
  match criterion with
  | some c => sort c reverse q2
  | none => q2

end ActionQueue

/-- A filesystem subtree as seen by the os.walk in ActionQueue.add: a
plain file or a directory with named children. -/
inductive FSTree where
  | file
  | dir (children : List (String × FSTree))

/-- Directory test on a tree node. -/
def FSTree.isDir : FSTree → Bool
  | FSTree.dir _ => true
  | FSTree.file => false

mutual

/-- The os.walk loop body of ActionQueue.add, fused with the walk itself.
os.walk yields nothing for a non-directory root (scandir fails and the
default onerror swallows it).  For a directory triple the source first
appends every non-ignored format-matching file, then scans the child
directory names in order: ignored ones are dropped, collection-pattern
ones are appended as whole collections without descent, and the rest are
descended into only when recursive is set (descent happens on later walk
iterations, hence after all appends of this triple).  The construction
ImageSet(path), which reads the real filesystem, is the load oracle;
cpat/ipat are the regex fullmatch oracles. -/
def walkAdd (load : DPath → ImageSet) (recursive inclusive : Bool)
    (formats : List String) (cpat ipat : String → Bool) (dirpath : DPath) :
    FSTree → List ImageSet
  | FSTree.file => []
  | FSTree.dir children =>
    let fileSets := children.filterMap (fun c =>
      match c with
      | (nm, FSTree.file) =>
        if ipat nm then none
        else if inclusive || decide ((suffixExt nm).toLower ∈ formats) then
          some (load (dirpath ++ [nm]))
        else none
      | (_, FSTree.dir _) => none)
    let collectionSets := children.filterMap (fun c =>
      match c with
      | (nm, FSTree.dir _) =>
        if ipat nm then none
        else if cpat nm then some (load (dirpath ++ [nm]))
        else none
      | (_, FSTree.file) => none)
    fileSets ++ collectionSets
      ++ walkAddChildren load recursive inclusive formats cpat ipat dirpath children

/-- Descent into the kept child directories, in listing order. -/
def walkAddChildren (load : DPath → ImageSet) (recursive inclusive : Bool)
    (formats : List String) (cpat ipat : String → Bool) (dirpath : DPath) :
    List (String × FSTree) → List ImageSet
  | [] => []
  | (nm, t) :: rest =>
    (match t with
     | FSTree.dir cs =>
       if !ipat nm && !cpat nm && recursive then
         walkAdd load recursive inclusive formats cpat ipat (dirpath ++ [nm]) (FSTree.dir cs)
       else []
     | FSTree.file => [])
    ++ walkAddChildren load recursive inclusive formats cpat ipat dirpath rest

end

namespace ActionQueue

/-- ActionQueue.add: walk the root and append each produced collection
to the queue; no other container is touched. -/
def add (load : DPath → ImageSet) (recursive inclusive : Bool)
    (formats : List String) (cpat ipat : String → Bool)
    (path : DPath) (t : FSTree) (q : ActionQueue) : ActionQueue :=
  { q with queue := q.queue ++ walkAdd load recursive inclusive formats cpat ipat path t }

end ActionQueue

/-- On-disk state: the list of existing filesystem nodes. -/
abbrev Disk := List DPath

/-- Python Path.exists against the disk model. -/
def path_exists (d : Disk) (p : DPath) : Bool := d.any (fun x => decide (x = p))

/-- shutil.rmtree semantics on the disk model: remove the node and
everything beneath it. -/
def rmtree_fs (p : DPath) (d : Disk) : Disk :=
  d.filter (fun x => !(p.isPrefixOf x))

/-- shutil.move semantics on the disk model: re-root the subtree. -/
def move_fs (src dst : DPath) (d : Disk) : Disk :=
  d.map (fun x => if src.isPrefixOf x then dst ++ x.drop src.length else x)

/-- shutil.copytree semantics on the disk model: duplicate the subtree
under the destination, leaving the source in place. -/
def copytree_fs (src dst : DPath) (d : Disk) : Disk :=
  d ++ (d.filter (fun x => src.isPrefixOf x)).map (fun x => dst ++ x.drop src.length)

/-- shutil.copy2 semantics on the disk model: a single file appears at
the destination; the source stays (file content is not modelled). -/
def copy2_fs (src dst : DPath) (d : Disk) : Disk :=
  let _ := src
  d ++ [dst]

/-- Python exceptions surfaced by the apply pass. -/
inductive PyError where
  | typeError
  | indexError
deriving DecidableEq

/-- An argument handed to shutil.rmtree: the apply pass passes a real
path in its deleted loop but passes the ImageSet object itself (not its
path) in the stale-overwrite loop. -/
inductive PyPathLike where
  | ofPath (p : DPath)
  | ofImageSet (s : ImageSet)

/-- os.fspath conversion performed by shutil: ImageSet defines no
__fspath__, so passing one raises TypeError. -/
def os_fspath : PyPathLike → Except PyError DPath
  | PyPathLike.ofPath p => Except.ok p
  | PyPathLike.ofImageSet _ => Except.error PyError.typeError

/-- shutil.rmtree with the Python argument conversion. -/
def shutil_rmtree (a : PyPathLike) (d : Disk) : Except PyError Disk :=
  match os_fspath a with
  | Except.error e => Except.error e
  | Except.ok p => Except.ok (rmtree_fs p d)

namespace ActionQueue

/-- One iteration of the selected-destination loop in ActionQueue.apply:
pop the most recent source (stack.pop raises IndexError on an empty
stored stack), clear an existing destination, then either move the
source and rmtree each stale entry (the source passes the ImageSet
object, not a path), or copy the source. -/
def applyDest (delete_original : Bool) (disk : Disk) (destination : DPath)
    (stack : List ImageSet) : Except PyError Disk :=
  match stack.getLast? with
  | none => Except.error PyError.indexError
  | some source =>
    let stale := stack.dropLast
    let disk1 := if path_exists disk destination then rmtree_fs destination disk else disk
    if delete_original then
      let disk2 := move_fs source.path destination disk1
      stale.foldlM (fun d ov => shutil_rmtree (PyPathLike.ofImageSet ov) d) disk2
    else
      if source.is_collection then Except.ok (copytree_fs source.path destination disk1)
      else Except.ok (copy2_fs source.path destination disk1)

/-- ActionQueue.apply: rmtree every deleted collection and clear
deleted, process each selected destination in insertion order, then
clear selected and reset the history.  On an exception the source leaves
its partially-mutated containers behind; the error result here carries
no state because no verified property inspects post-error containers. -/
def apply (delete_original : Bool) (q : ActionQueue) (disk : Disk) :
    Except PyError (ActionQueue × Disk) :=
  match q.selected.foldlM (fun d kv => applyDest delete_original d kv.1 kv.2)
      (q.deleted.foldl (fun d item => rmtree_fs item.path d) disk) with
  | Except.error e => Except.error e
  | Except.ok disk1 =>
    Except.ok (clear_history { q with deleted := [], selected := [] }, disk1)

end ActionQueue

end Handpix

namespace Handpix

namespace ActionQueue

/-- A user action request to the queue. -/
inductive Req where
  | rskip
  | rdelete
  | rselect (destination : DPath) (overwrite : Bool)
deriving DecidableEq

/-- Execute one request.  A PathCollision leaves the state unchanged:
the exception is raised before any mutation in the source. -/
def stepReq (disk : DPath → Bool) (r : Req) (q : ActionQueue) : ActionQueue :=
  match r with
  | Req.rskip => skip q
  | Req.rdelete => delete q
  | Req.rselect d ow =>
    match select disk q d ow with
    | Except.ok q1 => q1
    | Except.error _ => q

/-- The request succeeds: it pops the queue and records a history node
(select additionally must not raise PathCollision). -/
def stepOkB (disk : DPath → Bool) (r : Req) (q : ActionQueue) : Bool :=
  match r with
  | Req.rskip => !q.queue.isEmpty
  | Req.rdelete => !q.queue.isEmpty
  | Req.rselect d ow => !q.queue.isEmpty && (ow || !is_collision disk q d)

/-- Run a request sequence in order. -/
def runReqs (disk : DPath → Bool) : List Req → ActionQueue → ActionQueue
  | [], q => q
  | r :: rs, q => runReqs disk rs (stepReq disk r q)

/-- Every request in the sequence succeeds from its intermediate state. -/
def runOkB (disk : DPath → Bool) : List Req → ActionQueue → Bool
  | [], _ => true
  | r :: rs, q => stepOkB disk r q && runOkB disk rs (stepReq disk r q)

/-- n-fold iterated undo. -/
def undoN : Nat → ActionQueue → ActionQueue
  | 0, q => q
  | n + 1, q => (undo (undoN n q)).1

/-- Distinctness of association-list keys (automatic for a Python dict). -/
def nodupKeysB {α : Type} : List (DPath × α) → Bool
  | [] => true
  | kv :: t => !containsKey kv.1 t && nodupKeysB t

/-- Structural validity of the selected map: distinct keys (a Python
dict guarantees this) and no empty stack (select creates stacks with one
element, unselect drops a stack that empties, apply clears the map, so
every reachable state satisfies it). -/
def selInvB (q : ActionQueue) : Bool :=
  nodupKeysB q.selected && q.selected.all (fun kv => !kv.2.isEmpty)

/-- The four decision containers and the undo chain agree; the forward
redo chain is allowed to differ. -/
def SameContainers (a b : ActionQueue) : Prop :=
  a.queue = b.queue ∧ a.skipped = b.skipped ∧ a.deleted = b.deleted ∧
  a.selected = b.selected ∧ a.past = b.past

end ActionQueue

/-- Minimal single-file collection used in the concrete runs below. -/
def testSet (nm : String) : ImageSet :=
  { path := [nm], is_collection := false, files := [[nm]], cache := [],
    selected := 0, atime := 0, mtime := 0, name := nm, size := 0,
    humansize := "0 B total" }

/-- Disk oracle for runs on which no destination exists on disk. -/
def noDisk : DPath → Bool := fun _ => false

/-- Fresh queue holding two pending collections. -/
def qC1 : ActionQueue :=
  { ActionQueue.initialAQ with queue := [testSet "x", testSet "y"] }

/-- Queue whose only destination stack holds two collections (the first
was overwritten by the second). -/
def qC4 : ActionQueue :=
  { ActionQueue.initialAQ with
    selected := [(["dst"], [testSet "s1", testSet "s2"])],
    past := [HNode.SELECT ["dst"], HNode.SELECT ["dst"]] }

/-- Disk on which both pending sources of qC4 exist. -/
def diskC4 : Disk := [["s1"], ["s2"]]

/-- Queue state with one skipped collection and nothing else pending. -/
def qC5 : ActionQueue :=
  { ActionQueue.initialAQ with skipped := [testSet "s1"] }

/-- Fresh queue holding three collections named a, b and c. -/
def qC7 : ActionQueue :=
  { ActionQueue.initialAQ with queue := [testSet "a", testSet "b", testSet "c"] }

/-- Queue whose next history node is a selection to d/c/f. -/
def qC8 : ActionQueue :=
  { ActionQueue.initialAQ with future := [HNode.SELECT ["d", "c", "f"]] }

/-- Queue with one pending collection and one redoable node. -/
def qW1 : ActionQueue :=
  { ActionQueue.initialAQ with queue := [testSet "x"], future := [HNode.SKIP] }

/-- Fresh queue holding three pending collections. -/
def qW2 : ActionQueue :=
  { ActionQueue.initialAQ with queue := [testSet "x", testSet "y", testSet "z"] }

/-- Request sequence exercising all three actions. -/
def rsW2 : List ActionQueue.Req :=
  [ActionQueue.Req.rskip, ActionQueue.Req.rdelete, ActionQueue.Req.rselect ["d"] false]

/-- Fresh queue holding one pending collection. -/
def qW3 : ActionQueue :=
  { ActionQueue.initialAQ with queue := [testSet "x"] }

/-- Collection with no files, as loaded from an empty directory. -/
def emptySet : ImageSet :=
  { path := ["p"], is_collection := true, files := [], cache := [],
    selected := 0, atime := 0, mtime := 0, name := "p", size := 0,
    humansize := "0 B total" }

end Handpix

namespace Handpix

theorem containsKey_dictSet {α : Type} (a k : DPath) (v : α) (l : List (DPath × α)) :
    containsKey a (dictSet k v l) = (decide (k = a) || containsKey a l) := by
  induction l with
  | nil => simp [dictSet, containsKey]
  | cons kv t ih =>
    simp only [dictSet]
    by_cases h : kv.1 = k
    · rw [if_pos h]
      simp only [containsKey, h]
      by_cases h2 : k = a <;> simp [h2]
    · rw [if_neg h]
      simp only [containsKey, ih]
      by_cases h2 : kv.1 = a <;> simp [h2]

theorem nodupKeysB_dictSet {α : Type} (k : DPath) (v : α) (l : List (DPath × α))
    (h : ActionQueue.nodupKeysB l = true) :
    ActionQueue.nodupKeysB (dictSet k v l) = true := by
  induction l with
  | nil => simp [dictSet, ActionQueue.nodupKeysB, containsKey]
  | cons kv t ih =>
    obtain ⟨k1, v1⟩ := kv
    simp only [ActionQueue.nodupKeysB, Bool.and_eq_true, Bool.not_eq_true'] at h
    obtain ⟨h1, h2⟩ := h
    simp only [dictSet]
    by_cases hk : k1 = k
    · rw [if_pos hk]
      simp only [ActionQueue.nodupKeysB, Bool.and_eq_true, Bool.not_eq_true']
      exact ⟨hk ▸ h1, h2⟩
    · rw [if_neg hk]
      simp only [ActionQueue.nodupKeysB, Bool.and_eq_true, Bool.not_eq_true']
      refine ⟨?_, ih h2⟩
      rw [containsKey_dictSet]
      simp only [Bool.or_eq_false_iff, h1, and_true]
      simpa using fun he => hk he.symm

theorem all_dictSet {α : Type} (p : DPath × α → Bool) (k : DPath) (v : α)
    (l : List (DPath × α)) (h : l.all p = true) (hp : p (k, v) = true) :
    (dictSet k v l).all p = true := by
  induction l with
  | nil => simpa [dictSet] using hp
  | cons kv t ih =>
    simp only [List.all_cons, Bool.and_eq_true] at h
    obtain ⟨h1, h2⟩ := h
    simp only [dictSet]
    by_cases hk : kv.1 = k
    · rw [if_pos hk]
      simp [List.all_cons, hp, h2]
    · rw [if_neg hk]
      simp [List.all_cons, h1, ih h2]

theorem dictSet_of_not_contains {α : Type} (k : DPath) (v : α) (l : List (DPath × α))
    (h : containsKey k l = false) : dictSet k v l = l ++ [(k, v)] := by
  induction l with
  | nil => simp [dictSet]
  | cons kv t ih =>
    simp only [containsKey] at h
    by_cases hk : kv.1 = k
    · rw [if_pos hk] at h; exact absurd h (by simp)
    · rw [if_neg hk] at h
      simp [dictSet, hk, ih h]

theorem alistGet_append_self {α : Type} (k : DPath) (v : α) (l : List (DPath × α))
    (h : containsKey k l = false) : alistGet k (l ++ [(k, v)]) = some v := by
  induction l with
  | nil => simp [alistGet]
  | cons kv t ih =>
    simp only [containsKey] at h
    by_cases hk : kv.1 = k
    · rw [if_pos hk] at h; exact absurd h (by simp)
    · rw [if_neg hk] at h
      simpa [alistGet, hk] using ih h

theorem removeKey_append_self {α : Type} (k : DPath) (v : α) (l : List (DPath × α))
    (h : containsKey k l = false) : removeKey k (l ++ [(k, v)]) = l := by
  induction l with
  | nil => simp [removeKey]
  | cons kv t ih =>
    simp only [containsKey] at h
    by_cases hk : kv.1 = k
    · rw [if_pos hk] at h; exact absurd h (by simp)
    · rw [if_neg hk] at h
      simp [removeKey, hk, ih h]

theorem dictSet_append_self {α : Type} (k : DPath) (v w : α) (l : List (DPath × α))
    (h : containsKey k l = false) :
    dictSet k v (l ++ [(k, w)]) = l ++ [(k, v)] := by
  induction l with
  | nil => simp [dictSet]
  | cons kv t ih =>
    simp only [containsKey] at h
    by_cases hk : kv.1 = k
    · rw [if_pos hk] at h; exact absurd h (by simp)
    · rw [if_neg hk] at h
      simp [dictSet, hk, ih h]

theorem alistGet_dictSet_self {α : Type} (k : DPath) (v : α) (l : List (DPath × α)) :
    alistGet k (dictSet k v l) = some v := by
  induction l with
  | nil => simp [dictSet, alistGet]
  | cons kv t ih =>
    simp only [dictSet]
    by_cases hk : kv.1 = k
    · rw [if_pos hk]; simp [alistGet]
    · rw [if_neg hk]; simpa [alistGet, hk] using ih

theorem dictSet_dictSet_self {α : Type} (k : DPath) (v w : α) (l : List (DPath × α)) :
    dictSet k v (dictSet k w l) = dictSet k v l := by
  induction l with
  | nil => simp [dictSet]
  | cons kv t ih =>
    obtain ⟨k1, v1⟩ := kv
    simp only [dictSet]
    by_cases hk : k1 = k
    · rw [if_pos hk]; simp [dictSet, hk]
    · rw [if_neg hk]; simp [dictSet, hk, ih]

theorem dictSet_alistGet_self {α : Type} (k : DPath) (v : α) (l : List (DPath × α))
    (h : alistGet k l = some v) : dictSet k v l = l := by
  induction l with
  | nil => simp [alistGet] at h
  | cons kv t ih =>
    obtain ⟨k1, v1⟩ := kv
    simp only [alistGet] at h
    by_cases hk : k1 = k
    · rw [if_pos hk] at h
      obtain rfl : v1 = v := by simpa using h
      subst hk
      simp [dictSet]
    · rw [if_neg hk] at h
      simp [dictSet, hk, ih h]

theorem alistGet_mem {α : Type} (k : DPath) (v : α) (l : List (DPath × α))
    (h : alistGet k l = some v) : (k, v) ∈ l := by
  induction l with
  | nil => simp [alistGet] at h
  | cons kv t ih =>
    obtain ⟨k1, v1⟩ := kv
    simp only [alistGet] at h
    by_cases hk : k1 = k
    · rw [if_pos hk] at h
      obtain rfl : v1 = v := by simpa using h
      subst hk
      exact List.mem_cons_self _ _
    · rw [if_neg hk] at h
      exact List.mem_cons_of_mem _ (ih h)

theorem alistGet_isSome_of_containsKey {α : Type} (k : DPath) (l : List (DPath × α))
    (h : containsKey k l = true) : ∃ v, alistGet k l = some v := by
  induction l with
  | nil => simp [containsKey] at h
  | cons kv t ih =>
    simp only [containsKey] at h
    by_cases hk : kv.1 = k
    · exact ⟨kv.2, by simp [alistGet, hk]⟩
    · rw [if_neg hk] at h
      obtain ⟨v, hv⟩ := ih h
      exact ⟨v, by simp [alistGet, hk, hv]⟩

end Handpix

namespace Handpix

namespace ActionQueue

theorem sameContainers_refl (q : ActionQueue) : SameContainers q q :=
  ⟨rfl, rfl, rfl, rfl, rfl⟩

theorem sameContainers_trans {a b c : ActionQueue}
    (h1 : SameContainers a b) (h2 : SameContainers b c) : SameContainers a c := by
  obtain ⟨x1, x2, x3, x4, x5⟩ := h1
  obtain ⟨y1, y2, y3, y4, y5⟩ := h2
  exact ⟨x1.trans y1, x2.trans y2, x3.trans y3, x4.trans y4, x5.trans y5⟩

theorem undo_congr {a b : ActionQueue} (h : SameContainers a b) :
    SameContainers (undo a).1 (undo b).1 := by
  obtain ⟨h1, h2, h3, h4, h5⟩ := h
  obtain ⟨Qa, Sa, Da, SELa, Pa, Fa⟩ := a
  obtain ⟨Qb, Sb, Db, SELb, Pb, Fb⟩ := b
  simp only at h1 h2 h3 h4 h5
  subst h1; subst h2; subst h3; subst h4; subst h5
  cases Pa with
  | nil => exact ⟨rfl, rfl, rfl, rfl, rfl⟩
  | cons hnode rest =>
    cases hnode with
    | SKIP =>
      rcases hS : Sa.getLast? with _ | x <;>
        simp [undo, backPriv, hS, SameContainers]
    | DELETE =>
      rcases hD : Da.getLast? with _ | x <;>
        simp [undo, undeletePriv, hD, SameContainers]
    | SELECT t =>
      rcases hG : alistGet t SELa with _ | stack
      · simp [undo, unselectPriv, hG, SameContainers]
      · rcases hL : stack.getLast? with _ | x <;>
          simp [undo, unselectPriv, hG, hL, SameContainers]

theorem skip_selected (q : ActionQueue) : (skip q).selected = q.selected := by
  rcases h : q.queue.getLast? with _ | x <;>
    cases hF : q.future <;>
      simp [skip, skipPriv, add_history, h, hF]

theorem delete_selected (q : ActionQueue) : (delete q).selected = q.selected := by
  rcases h : q.queue.getLast? with _ | x <;>
    cases hF : q.future <;>
      simp [delete, deletePriv, add_history, h, hF]

theorem selInvB_stepReq (disk : DPath → Bool) (r : Req) (q : ActionQueue)
    (hinv : selInvB q = true) : selInvB (stepReq disk r q) = true := by
  cases r with
  | rskip =>
    have h := skip_selected q
    simpa [stepReq, selInvB, h] using hinv
  | rdelete =>
    have h := delete_selected q
    simpa [stepReq, selInvB, h] using hinv
  | rselect d ow =>
    obtain ⟨Q, S, D, SEL, P, F⟩ := q
    rcases hQ : Q.getLast? with _ | b
    · have he : stepReq disk (Req.rselect d ow) ⟨Q, S, D, SEL, P, F⟩
          = ⟨Q, S, D, SEL, P, F⟩ := by
        simp [stepReq, select, selectPriv, hQ]
      rw [he]; exact hinv
    · by_cases hguard : (!ow && is_collision disk ⟨Q, S, D, SEL, P, F⟩ d) = true
      · have he : stepReq disk (Req.rselect d ow) ⟨Q, S, D, SEL, P, F⟩
            = ⟨Q, S, D, SEL, P, F⟩ := by
          simp [stepReq, select, selectPriv, hQ, hguard]
        rw [he]; exact hinv
      · have hinv2 := hinv
        simp only [selInvB, Bool.and_eq_true] at hinv2
        obtain ⟨hnd, hne⟩ := hinv2
        rw [Bool.not_eq_true] at hguard
        by_cases hc : containsKey d SEL = true
        · obtain ⟨v, hv⟩ := alistGet_isSome_of_containsKey d SEL hc
          simp only [stepReq, select, selectPriv, hQ, hguard, Bool.false_eq_true,
            if_false, hc, if_true, hv, Option.getD_some]
          cases F <;>
            · simp only [add_history, selInvB, Bool.and_eq_true]
              refine ⟨nodupKeysB_dictSet _ _ _ hnd, all_dictSet _ _ _ _ hne (by simp)⟩
        · rw [Bool.not_eq_true] at hc
          have h0 : alistGet d (dictSet d ([] : List ImageSet) SEL) = some [] :=
            alistGet_dictSet_self d [] SEL
          simp only [stepReq, select, selectPriv, hQ, hguard, Bool.false_eq_true,
            if_false, hc, if_true, h0, Option.getD_some]
          rw [dictSet_dictSet_self]
          cases F <;>
            · simp only [add_history, selInvB, Bool.and_eq_true]
              refine ⟨nodupKeysB_dictSet _ _ _ hnd, all_dictSet _ _ _ _ hne (by simp)⟩

end ActionQueue

end Handpix

namespace Handpix

namespace ActionQueue

theorem undo_stepReq (disk : DPath → Bool) (r : Req) (q : ActionQueue)
    (hinv : selInvB q = true) (hok : stepOkB disk r q = true) :
    SameContainers (undo (stepReq disk r q)).1 q := by
  obtain ⟨Q, S, D, SEL, P, F⟩ := q
  cases r with
  | rskip =>
    rcases List.eq_nil_or_concat Q with rfl | ⟨L, b, hQ⟩
    · simp [stepOkB] at hok
    · rw [List.concat_eq_append] at hQ
      subst hQ
      cases F <;>
        simp [stepReq, skip, skipPriv, add_history, undo, backPriv,
          List.getLast?_concat, List.dropLast_concat, SameContainers]
  | rdelete =>
    rcases List.eq_nil_or_concat Q with rfl | ⟨L, b, hQ⟩
    · simp [stepOkB] at hok
    · rw [List.concat_eq_append] at hQ
      subst hQ
      cases F <;>
        simp [stepReq, delete, deletePriv, add_history, undo, undeletePriv,
          List.getLast?_concat, List.dropLast_concat, SameContainers]
  | rselect d ow =>
    simp only [stepOkB, Bool.and_eq_true] at hok
    obtain ⟨hne0, hor⟩ := hok
    rcases List.eq_nil_or_concat Q with rfl | ⟨L, b, hQ⟩
    · simp at hne0
    · rw [List.concat_eq_append] at hQ
      subst hQ
      have hguard : (!ow && is_collision disk ⟨L ++ [b], S, D, SEL, P, F⟩ d) = false := by
        cases ow with
        | false =>
          simp only [Bool.or_eq_true] at hor
          rcases hor with h | h
          · simp at h
          · simp only [Bool.not_eq_true'] at h
            simp [h]
        | true => simp
      have hinv2 := hinv
      simp only [selInvB, Bool.and_eq_true] at hinv2
      obtain ⟨hnd, hne⟩ := hinv2
      by_cases hc : containsKey d SEL = true
      · obtain ⟨v, hv⟩ := alistGet_isSome_of_containsKey d SEL hc
        have hvne : v ≠ [] := by
          have hmem := alistGet_mem d v SEL hv
          have hb := List.all_eq_true.mp hne _ hmem
          simpa [List.isEmpty_iff] using hb
        have hstep : stepReq disk (Req.rselect d ow) ⟨L ++ [b], S, D, SEL, P, F⟩
            = add_history ⟨L, S, D, dictSet d (v ++ [b]) SEL, P, F⟩ (HNode.SELECT d) := by
          simp [stepReq, select, selectPriv, List.getLast?_concat, hguard, hc, hv,
            List.dropLast_concat]
        rw [hstep]
        have hget : alistGet d (dictSet d (v ++ [b]) SEL) = some (v ++ [b]) :=
          alistGet_dictSet_self _ _ _
        cases F <;>
          simp [add_history, undo, unselectPriv, hget, List.getLast?_concat,
            List.dropLast_concat, hvne, dictSet_dictSet_self,
            dictSet_alistGet_self d v SEL hv, SameContainers]
      · rw [Bool.not_eq_true] at hc
        have h0 : alistGet d (dictSet d ([] : List ImageSet) SEL) = some [] :=
          alistGet_dictSet_self d [] SEL
        have hstep : stepReq disk (Req.rselect d ow) ⟨L ++ [b], S, D, SEL, P, F⟩
            = add_history ⟨L, S, D, SEL ++ [(d, [b])], P, F⟩ (HNode.SELECT d) := by
          simp [stepReq, select, selectPriv, List.getLast?_concat, hguard, hc, h0,
            List.dropLast_concat, dictSet_dictSet_self,
            dictSet_of_not_contains d [b] SEL hc]
        rw [hstep]
        have hget : alistGet d (SEL ++ [(d, [b])]) = some [b] :=
          alistGet_append_self d [b] SEL hc
        have hgl : (([b] : List ImageSet)).getLast? = some b := rfl
        have hrem : removeKey d (dictSet d ([] : List ImageSet)
            (SEL ++ [(d, [b])])) = SEL := by
          rw [dictSet_append_self d [] [b] SEL hc]
          exact removeKey_append_self d [] SEL hc
        cases F <;>
          simp [add_history, undo, unselectPriv, hget, hgl, hrem, SameContainers]

end ActionQueue

end Handpix

namespace Handpix

namespace ActionQueue

theorem redo_snd (disk : DPath → Bool) (p : ActionQueue) :
    (redo disk p).2 = !p.future.isEmpty := by
  rcases hF : p.future with _ | ⟨f, fs⟩ <;> simp [redo, hF]

theorem stepReq_future (disk : DPath → Bool) (r : Req) (q : ActionQueue)
    (hok : stepOkB disk r q = true) :
    (stepReq disk r q).future = q.future.tail := by
  obtain ⟨Q, S, D, SEL, P, F⟩ := q
  cases r with
  | rskip =>
    rcases List.eq_nil_or_concat Q with rfl | ⟨L, b, hQ⟩
    · simp [stepOkB] at hok
    · rw [List.concat_eq_append] at hQ
      subst hQ
      cases F <;> simp [stepReq, skip, skipPriv, add_history, List.getLast?_concat]
  | rdelete =>
    rcases List.eq_nil_or_concat Q with rfl | ⟨L, b, hQ⟩
    · simp [stepOkB] at hok
    · rw [List.concat_eq_append] at hQ
      subst hQ
      cases F <;> simp [stepReq, delete, deletePriv, add_history, List.getLast?_concat]
  | rselect d ow =>
    simp only [stepOkB, Bool.and_eq_true] at hok
    obtain ⟨hne0, hor⟩ := hok
    rcases List.eq_nil_or_concat Q with rfl | ⟨L, b, hQ⟩
    · simp at hne0
    · rw [List.concat_eq_append] at hQ
      subst hQ
      have hguard : (!ow && is_collision disk ⟨L ++ [b], S, D, SEL, P, F⟩ d) = false := by
        cases ow with
        | false =>
          simp only [Bool.or_eq_true] at hor
          rcases hor with h | h
          · simp at h
          · simp only [Bool.not_eq_true'] at h
            simp [h]
        | true => simp
      cases F <;>
        simp [stepReq, select, selectPriv, add_history, List.getLast?_concat, hguard]

end ActionQueue

open ActionQueue

/-- C1.  Counterexample to the claim that a new action after undo calls
leaves no redoable node: starting from a fresh queue of two collections,
two skips, two undos and one new skip leave the second old node still
chained behind the overwritten one, so redo returns true, not false. -/
theorem C1_counterexample :
    (redo noDisk (skip (undo (undo (skip (skip qC1))).1).1)).2 = true := by decide

/-- C1 (amended).  A successful new action overwrites the next history
node in place (the history stays a single chain, so there is never a
second redo branch), and a subsequent redo returns false exactly when
the overwritten node was the last of the branch, i.e. when at most one
action had been undone; deeper nodes survive and remain redoable. -/
theorem C1_overwrite_redo (disk : DPath → Bool) (r : Req) (q : ActionQueue)
    (hok : stepOkB disk r q = true) :
    ((redo disk (stepReq disk r q)).2 = false ↔ q.future.length ≤ 1) := by
  rw [redo_snd, stepReq_future disk r q hok]
  rcases q.future with _ | ⟨f, fs⟩
  · simp
  · cases fs <;> simp

/-- C1 witness: the amended theorem applied to a concrete queue with one
pending collection and exactly one redoable node. -/
theorem C1_overwrite_redo_witness :
    stepOkB noDisk Req.rskip qW1 = true ∧
    ((redo noDisk (stepReq noDisk Req.rskip qW1)).2 = false ↔ qW1.future.length ≤ 1) :=
  ⟨by decide, C1_overwrite_redo noDisk Req.rskip qW1 (by decide)⟩

/-- C2.  For every queue state whose selected map is a valid dict of
live stacks (true of every reachable state) and every sequence of
successful skip/delete/select requests, undoing as many times restores
the queue, skipped, deleted and selected containers (and the backward
history) to their exact previous contents and order. -/
theorem C2_undo_restores (disk : DPath → Bool) (rs : List Req) (q : ActionQueue)
    (hinv : selInvB q = true) (hok : runOkB disk rs q = true) :
    SameContainers (undoN rs.length (runReqs disk rs q)) q := by
  induction rs generalizing q with
  | nil => exact sameContainers_refl q
  | cons r rs ih =>
    simp only [runOkB, Bool.and_eq_true] at hok
    obtain ⟨h1, h2⟩ := hok
    have hinv1 := selInvB_stepReq disk r q hinv
    have hIH := ih (stepReq disk r q) hinv1 h2
    exact sameContainers_trans (undo_congr hIH) (undo_stepReq disk r q hinv h1)

/-- C2 witness: a fresh three-element queue, one skip, one delete and
one collision-free select, then three undos. -/
theorem C2_undo_restores_witness :
    selInvB qW2 = true ∧ runOkB noDisk rsW2 qW2 = true ∧
    SameContainers (undoN rsW2.length (runReqs noDisk rsW2 qW2)) qW2 :=
  ⟨by decide, by decide, C2_undo_restores noDisk rsW2 qW2 (by decide) (by decide)⟩

/-- C3.  On a non-empty queue, select with overwrite false raises
PathCollision exactly when the destination is a pending selected key or
exists on disk, the raised exception carries that destination (the
source raises before any mutation, so the state is untouched in the
raising case: the embedding returns the error with no new state), and
select with overwrite true always succeeds. -/
theorem C3_select_collision (disk : DPath → Bool) (q : ActionQueue) (d : DPath)
    (hq : q.queue ≠ []) :
    ((∃ e, select disk q d false = Except.error e)
        ↔ (containsKey d q.selected || disk d) = true)
    ∧ (∀ e, select disk q d false = Except.error e → e = { destination := d })
    ∧ (∃ q1, select disk q d true = Except.ok q1) := by
  obtain ⟨Q, S, D, SEL, P, F⟩ := q
  simp only at hq
  rcases List.eq_nil_or_concat Q with rfl | ⟨L, b, hQ⟩
  · exact absurd rfl hq
  · rw [List.concat_eq_append] at hQ
    subst hQ
    have hok : ∃ q1, select disk ⟨L ++ [b], S, D, SEL, P, F⟩ d true = Except.ok q1 := by
      simp only [select, selectPriv, List.getLast?_concat, Bool.not_true,
        Bool.false_and, Bool.false_eq_true, if_false]
      exact ⟨_, rfl⟩
    by_cases hc : (containsKey d SEL || disk d) = true
    · have hsel : select disk ⟨L ++ [b], S, D, SEL, P, F⟩ d false
          = Except.error { destination := d } := by
        simp [select, selectPriv, List.getLast?_concat, is_collision, hc]
      refine ⟨⟨fun _ => hc, fun _ => ⟨{ destination := d }, hsel⟩⟩, ?_, hok⟩
      intro e he
      rw [hsel] at he
      injection he with h
      exact h.symm
    · rw [Bool.not_eq_true] at hc
      have hsel : ∃ q1, select disk ⟨L ++ [b], S, D, SEL, P, F⟩ d false
          = Except.ok q1 := by
        simp only [select, selectPriv, List.getLast?_concat, is_collision, hc,
          Bool.and_false, Bool.false_eq_true, if_false]
        exact ⟨_, rfl⟩
      obtain ⟨q1, hq1⟩ := hsel
      refine ⟨⟨?_, ?_⟩, ?_, hok⟩
      · rintro ⟨e, he⟩
        rw [hq1] at he
        simp at he
      · intro h
        rw [h] at hc
        simp at hc
      · intro e he
        rw [hq1] at he
        simp at he

/-- C3 witness: a one-element queue, an unclaimed destination and an
empty disk: no exception without overwrite, and success with it. -/
theorem C3_select_collision_witness :
    qW3.queue ≠ [] ∧
    (((∃ e, select noDisk qW3 ["d"] false = Except.error e)
        ↔ (containsKey ["d"] qW3.selected || noDisk ["d"]) = true)
    ∧ (∀ e, select noDisk qW3 ["d"] false = Except.error e
        → e = { destination := ["d"] })
    ∧ (∃ q1, select noDisk qW3 ["d"] true = Except.ok q1)) :=
  ⟨by decide, C3_select_collision noDisk qW3 ["d"] (by decide)⟩

/-- C4.  Evaluating apply with delete_original at the claim's own
scenario (one destination whose stack holds two collections) shows the
stale-entry cleanup pass shutil.rmtree(overwrite) the ImageSet object
instead of its path: os.fspath raises TypeError, so the stale source is
never removed from disk and apply aborts after the move. -/
theorem C4_apply_stale_typeerror :
    apply true qC4 diskC4 = Except.error PyError.typeError := rfl

/-- C5.  Counterexample to the claim that apply clears the skipped
stack: on a state whose only content is one skipped collection, apply
completes without error and returns the state with skipped untouched. -/
theorem C5_counterexample :
    apply false qC5 [] = Except.ok (qC5, []) ∧ qC5.skipped ≠ [] :=
  ⟨rfl, by decide⟩

/-- C5 (amended).  Any apply call that completes without error clears
deleted and selected and resets the history to the START sentinel, but
leaves the skipped stack (and the pending queue) unchanged; skipped is
only drained by requeue. -/
theorem C5_apply_clears (delete_original : Bool) (q : ActionQueue) (disk : Disk)
    (q1 : ActionQueue) (disk1 : Disk)
    (h : apply delete_original q disk = Except.ok (q1, disk1)) :
    q1.deleted = [] ∧ q1.selected = [] ∧ q1.past = [] ∧ q1.future = []
      ∧ q1.skipped = q.skipped ∧ q1.queue = q.queue := by
  unfold apply at h
  split at h
  · simp at h
  · simp only [Except.ok.injEq, Prod.mk.injEq] at h
    obtain ⟨h1, _⟩ := h
    subst h1
    simp [clear_history]

/-- C5 witness: the amended theorem applied at the concrete state whose
only content is one skipped collection. -/
theorem C5_apply_clears_witness :
    qC5.deleted = [] ∧ qC5.selected = [] ∧ qC5.past = [] ∧ qC5.future = []
      ∧ qC5.skipped = qC5.skipped ∧ qC5.queue = qC5.queue :=
  C5_apply_clears false qC5 [] qC5 [] rfl

/-- C6.  Evaluating get_progress on a queue that has never held an item
(the fresh state): total is zero and the source divides by it, raising
ZeroDivisionError (the none result) instead of returning 1.0 as the
claim requires, so the function is not total. -/
theorem C6_progress_division_by_zero :
    get_progress initialAQ = none := rfl

/-- C7.  The sort scenario of the claim: three collections named a, b
and c sorted by name ascending leave the internal list in descending
order [c, b, a]; peek returns a, after skip peek returns b with a on the
skipped stack, and after undo peek returns a again with skipped empty. -/
theorem C7_sort_inverted_scenario :
    (ActionQueue.sort "name" false qC7).queue = [testSet "c", testSet "b", testSet "a"]
    ∧ peek (ActionQueue.sort "name" false qC7) = some (testSet "a")
    ∧ peek (skip (ActionQueue.sort "name" false qC7)) = some (testSet "b")
    ∧ (skip (ActionQueue.sort "name" false qC7)).skipped = [testSet "a"]
    ∧ peek (undo (skip (ActionQueue.sort "name" false qC7))).1 = some (testSet "a")
    ∧ (undo (skip (ActionQueue.sort "name" false qC7))).1.skipped = [] := by decide

/-- C8.  Counterexample: with the next history node a selection to
d/c/f, the status string is the parent segment c produced by
target.parents[0].name, not the terminal segment f the claim names. -/
theorem C8_counterexample :
    get_item_status qC8 = "c"
    ∧ get_item_status qC8 ≠ pathName ["d", "c", "f"] := by decide

/-- C8 (amended).  The status is read from the node after the cursor:
skipped and deleted after undoing a skip or delete, the name of the
destination's parent directory (not its terminal segment) after undoing
a selection, and unsorted when no next node exists. -/
theorem C8_item_status (q : ActionQueue) (d : DPath) (disk : DPath → Bool)
    (hq : q.queue ≠ []) :
    get_item_status (undo (skip q)).1 = "skipped"
    ∧ get_item_status (undo (delete q)).1 = "deleted"
    ∧ (∀ q1, select disk q d true = Except.ok q1 →
        get_item_status (undo q1).1 = pathName (parent0 d))
    ∧ (q.future = [] → get_item_status q = "unsorted") := by
  obtain ⟨Q, S, D, SEL, P, F⟩ := q
  simp only at hq
  rcases List.eq_nil_or_concat Q with rfl | ⟨L, b, hQ⟩
  · exact absurd rfl hq
  · rw [List.concat_eq_append] at hQ
    subst hQ
    refine ⟨?_, ?_, ?_, ?_⟩
    · cases F <;>
        simp [skip, skipPriv, add_history, undo, List.getLast?_concat, get_item_status]
    · cases F <;>
        simp [delete, deletePriv, add_history, undo, List.getLast?_concat, get_item_status]
    · intro q1 hsel
      simp only [select, selectPriv, List.getLast?_concat, Bool.not_true,
        Bool.false_and, Bool.false_eq_true, if_false, Except.ok.injEq] at hsel
      subst hsel
      cases F <;> simp [add_history, undo, get_item_status]
    · intro hF
      subst hF
      rfl

/-- C8 witness: the amended theorem at a one-element queue and the
destination d/c/f. -/
theorem C8_item_status_witness :
    qW3.queue ≠ [] ∧
    (get_item_status (undo (skip qW3)).1 = "skipped"
    ∧ get_item_status (undo (delete qW3)).1 = "deleted"
    ∧ (∀ q1, select noDisk qW3 ["d", "c", "f"] true = Except.ok q1 →
        get_item_status (undo q1).1 = pathName (parent0 ["d", "c", "f"]))
    ∧ (qW3.future = [] → get_item_status qW3 = "unsorted")) :=
  ⟨by decide, C8_item_status qW3 ["d", "c", "f"] noDisk (by decide)⟩

/-- C9.  On a collection with no files, get_image, get_text and
get_item_name return their documented sentinels, but get_item_type has
no emptiness guard: files[selected] raises IndexError (the none result),
so not every accessor is total on an empty collection. -/
theorem C9_empty_collection_accessors (imageFormats : List String) (DEF : Pixbuf)
    (render : DPath → Nat → Option Pixbuf) (image_size : Option Nat)
    (read_text : DPath → Option String) :
    ImageSet.get_image imageFormats DEF render image_size emptySet = some (DEF, emptySet)
    ∧ ImageSet.get_text imageFormats read_text emptySet
        = some (CacheVal.text DEFAULT_TEXT, emptySet)
    ∧ ImageSet.get_item_name emptySet = some NO_FILES_TEXT
    ∧ ImageSet.get_item_type imageFormats emptySet = none := by
  exact ⟨rfl, rfl, rfl, rfl⟩

/-- C10.  add on a root that is a plain file appends nothing and leaves
the whole queue state unchanged: os.walk yields no triples for a
non-directory root. -/
theorem C10_add_file_root (load : DPath → ImageSet) (recursive inclusive : Bool)
    (formats : List String) (cpat ipat : String → Bool) (path : DPath)
    (q : ActionQueue) :
    ActionQueue.add load recursive inclusive formats cpat ipat path FSTree.file q = q := by
  simp [ActionQueue.add, walkAdd]

end Handpix
